import Mathlib

/-!
Shallow embedding of the hybrid recommendation engine and its TTL cache
(`src/backend/cache.py`, `src/ml_pipeline/hybrid_engine.py`).

Modelling conventions:
* Python `dict` is modelled as an insertion-ordered association list with
  unique keys: `dict(pairs)` folds `dictSet` (update-in-place on an existing
  key, append on a fresh key), matching CPython 3.7+ ordered dicts.
* `datetime.utcnow()` is an explicit `now : Nat` argument (seconds); scores
  and prices are `ℚ`.
* Python's stable `list.sort(key=..., reverse=True)` is `List.insertionSort`
  with the reversed comparison: Mathlib's `insertionSort` is stable in the
  same sense (`List.sublist_insertionSort`), and a stable sort for a total
  preorder is unique, so this is the same function Timsort computes.
* CPython set iteration order is unspecified (hash-dependent); the embedding
  determinizes `set(a) | set(b)` as first-occurrence order: keys of the first
  map, then new keys of the second.
* Exceptions are `Except Unit`; a bare `except:` is a `match` that replaces
  the error with the handler's value.  Wall-clock fields
  (`processing_time_ms`) are omitted: real time is outside the embedding.
-/

/-- Insertion-ordered lookup: first (unique) binding of `k`. -/
def dictGet {β : Type} (d : List (String × β)) (k : String) : Option β :=
  (d.find? (fun p => decide (p.1 = k))).map (·.2)

/-- Python `d[k] = v`: update in place if `k` is bound, else append. -/
def dictSet {β : Type} : List (String × β) → String → β → List (String × β)
  | [], k, v => [(k, v)]
  | p :: t, k, v => if p.1 = k then (k, v) :: t else p :: dictSet t k v

/-- Python `del d[k]` (keys are unique, so removing all bindings of `k`
coincides with removing the one binding). -/
def dictDel {β : Type} (d : List (String × β)) (k : String) : List (String × β) :=
  d.filter (fun p => !(decide (p.1 = k)))

/-- The keys of an insertion-ordered dict, in order. -/
def dictKeys {β : Type} (d : List (String × β)) : List String :=
  d.map (·.1)

/-- Python `dict(pairs)`: fold the pairs left to right, later bindings of a
key overwriting earlier ones in place. -/
def pyDict {β : Type} (l : List (String × β)) : List (String × β) :=
  l.foldl (fun d p => dictSet d p.1 p.2) []

/-- `TTLCache` from `src/backend/cache.py`: bounded insertion-ordered map
from string keys to `(value, expiry)`. -/
structure TTLCache (α : Type) where
  ttl_seconds : Nat
  max_size : Nat
  cache : List (String × α × Nat)
  deriving Repr

/-- `TTLCache.get`: value if present and `now < expiry`; an expired entry is
deleted as a side effect.  Returns the value (or `none`) with the
post-state. -/
def TTLCache.get {α : Type} (c : TTLCache α) (key : String) (now : Nat) :
    Option α × TTLCache α :=
  match dictGet c.cache key with
  | some (value, expiry) =>
      if now < expiry then (some value, c)
      else (none, { c with cache := dictDel c.cache key })
  | none => (none, c)

/-- `TTLCache.set`: when at capacity, delete the first (earliest-inserted)
entry — `next(iter(self._cache))` — then bind `key` to
`(value, now + ttl_seconds)`. -/
def TTLCache.set {α : Type} (c : TTLCache α) (key : String) (value : α)
    (now : Nat) : TTLCache α :=
  let cache := if c.max_size ≤ c.cache.length then c.cache.drop 1 else c.cache
  { c with cache := dictSet cache key (value, now + c.ttl_seconds) }

/-- `TTLCache.clear`. -/
def TTLCache.clear {α : Type} (c : TTLCache α) : TTLCache α :=
  { c with cache := [] }

/-- `TTLCache.remove`. -/
def TTLCache.remove {α : Type} (c : TTLCache α) (key : String) : TTLCache α :=
  { c with cache := dictDel c.cache key }

/-- Insert each key of `ks` (bound to itself) at time `now`, in order:
the eviction scenario of the spec. -/
def TTLCache.insertAll (c : TTLCache String) (ks : List String) (now : Nat) :
    TTLCache String :=
  ks.foldl (fun c k => c.set k k now) c

/-- One row of `data/features/products.csv` as used by the engine. -/
structure Product where
  stock_code : String
  description : String
  category : String
  price : ℚ
  popularity_score : ℚ
  deriving DecidableEq, Repr

/-- One recommendation dict produced by `HybridRecommender`.  Keys that a
given stage does not set are `none` (`processing_time_ms` omitted:
wall-clock). -/
structure RecEntry where
  product_id : String
  score : ℚ
  source : Option String := none
  cbf_score : Option ℚ := none
  cf_score : Option ℚ := none
  product_name : Option String := none
  category : Option String := none
  price : Option ℚ := none
  popularity : Option ℚ := none
  method : Option String := none
  deriving DecidableEq, Repr

/-- The `HybridRecommender` object after `load_models`: configuration plus
the loaded artifacts.  The two models are opaque prediction functions
(history, candidates, top_k) resp. (user, candidates, top_k); `cf_model`
may raise, modelled as `Except Unit`. -/
structure HybridRecommender where
  collaborative_weight : ℚ
  content_weight : ℚ
  min_purchases_for_cf : Nat
  products_df : List Product
  user_item_matrix : List (String × List (String × ℚ))
  cbf_model : List String → List String → Nat → List (String × ℚ)
  cf_model : String → List String → Nat → Except Unit (List (String × ℚ))

/-- `get_user_purchase_history`: the columns of the user's row with a
positive entry, in column order; `[]` for an unknown user. -/
def HybridRecommender.get_user_purchase_history (r : HybridRecommender)
    (user_id : String) : List String :=
  match dictGet r.user_item_matrix user_id with
  | none => []
  | some row => (row.filter (fun p => decide (0 < p.2))).map (·.1)

/-- `max(d.values())` for a nonempty dict (`0` on the empty dict, where the
normalization step never consults it). -/
def maxVal (d : List (String × ℚ)) : ℚ :=
  match d with
  | [] => 0
  | p :: t => t.foldl (fun m q => max m q.2) p.2

/-- The per-map normalization inside `_combine_scores`:
`{k: v/max if max > 0 else v}` — divide by the map's own maximum when it is
positive, otherwise leave every value unchanged. -/
def normalizeScores (d : List (String × ℚ)) : List (String × ℚ) :=
  if 0 < maxVal d then d.map (fun p => (p.1, p.2 / maxVal d)) else d

/-- Comparison handed to the stable sort: `reverse=True` on the score key. -/
def scoreDesc (a b : RecEntry) : Prop :=
  b.score ≤ a.score

instance : DecidableRel scoreDesc :=
  fun a b => inferInstanceAs (Decidable (b.score ≤ a.score))

instance : IsTotal RecEntry scoreDesc :=
  ⟨fun a b => le_total b.score a.score⟩

instance : IsTrans RecEntry scoreDesc :=
  ⟨fun _ _ _ hab hbc => le_trans hbc hab⟩

/-- The `combined` list of `_combine_scores` before sorting: one entry per
key of the union of the two (already normalized) dicts, a missing key
contributing score `0`.  Set-union iteration is determinized as
first-occurrence order (see the header note). -/
def combineUnsorted (cbf_dict cf_dict : List (String × ℚ))
    (cbf_weight cf_weight : ℚ) : List RecEntry :=
  let all_products :=
    dictKeys cbf_dict ++
      (dictKeys cf_dict).filter (fun k => !(decide (k ∈ dictKeys cbf_dict)))
  all_products.map (fun product_id =>
    let cbf_score := (dictGet cbf_dict product_id).getD 0
    let cf_score := (dictGet cf_dict product_id).getD 0
    { product_id := product_id
      score := cbf_weight * cbf_score + cf_weight * cf_score
      cbf_score := some cbf_score
      cf_score := some cf_score })

/-- `_combine_scores`: build both dicts, normalize each independently,
blend over the key union, and stable-sort by final score descending. -/
def HybridRecommender.combine_scores
    (cbf_recs cf_recs : List (String × ℚ))
    (cbf_weight cf_weight : ℚ) : List RecEntry :=
  (combineUnsorted (normalizeScores (pyDict cbf_recs))
      (normalizeScores (pyDict cf_recs)) cbf_weight cf_weight).insertionSort
    scoreDesc

/-- Comparison for `nlargest(top_k, 'popularity_score')`: stable descending
order on popularity (`nlargest` keeps catalog order on ties). -/
def popDesc (a b : Product) : Prop :=
  b.popularity_score ≤ a.popularity_score

instance : DecidableRel popDesc :=
  fun a b => inferInstanceAs (Decidable (b.popularity_score ≤ a.popularity_score))

instance : IsTotal Product popDesc :=
  ⟨fun a b => le_total b.popularity_score a.popularity_score⟩

instance : IsTrans Product popDesc :=
  ⟨fun _ _ _ hab hbc => le_trans hbc hab⟩

/-- `_cold_start_recommend`: the `top_k` most popular products
(`nlargest` keeps catalog order on ties), scored `popularity_score / 100`
and tagged `popularity`. -/
def HybridRecommender.cold_start_recommend (r : HybridRecommender)
    (top_k : Nat) : List RecEntry :=
  ((r.products_df.insertionSort popDesc).take top_k).map (fun p =>
    { product_id := p.stock_code
      score := p.popularity_score / 100
      source := some "popularity" })

/-- `_warm_start_recommend`: both signals with a bare `except:` around the
collaborative call (a failure becomes the empty list), blended with the
hard-coded weights `0.7` / `0.3`, truncated to `top_k`. -/
def HybridRecommender.warm_start_recommend (r : HybridRecommender)
    (user_id : String) (purchase_history all_products : List String)
    (top_k : Nat) : List RecEntry :=
  let cbf_recs := r.cbf_model purchase_history all_products (top_k * 2)
  let cf_recs :=
    match r.cf_model user_id all_products (top_k * 2) with
    | Except.ok l => l
    | Except.error _ => []
  (HybridRecommender.combine_scores cbf_recs cf_recs (7 / 10) (3 / 10)).take
    top_k

/-- `_hybrid_recommend`: both signals with the configured weights; the
collaborative call is NOT guarded, so its exception propagates. -/
def HybridRecommender.hybrid_recommend (r : HybridRecommender)
    (user_id : String) (purchase_history all_products : List String)
    (top_k : Nat) : Except Unit (List RecEntry) :=
  let cbf_recs := r.cbf_model purchase_history all_products (top_k * 2)
  match r.cf_model user_id all_products (top_k * 2) with
  | Except.error e => Except.error e
  | Except.ok cf_recs =>
      Except.ok
        ((HybridRecommender.combine_scores cbf_recs cf_recs r.content_weight
            r.collaborative_weight).take top_k)

/-- `_enrich_recommendations`: first catalog row matching each product id
supplies name/category/price/popularity; an id absent from the catalog is
silently dropped. -/
def HybridRecommender.enrich_recommendations (r : HybridRecommender)
    (recs : List RecEntry) : List RecEntry :=
  recs.filterMap (fun rec =>
    match r.products_df.find? (fun p => decide (p.stock_code = rec.product_id)) with
    | some p =>
        some { rec with
                product_name := some p.description
                category := some p.category
                price := some p.price
                popularity := some p.popularity_score }
    | none => none)

/-- The tail of `recommend` shared by the three tiers: optional exclusion of
purchased items, truncation to `top_k`, catalog enrichment, and tagging
with the tier label. -/
def HybridRecommender.postprocess (r : HybridRecommender)
    (purchase_history : List String) (method : String) (top_k : Nat)
    (exclude_purchased : Bool) (recs : List RecEntry) : List RecEntry :=
  let recs :=
    if exclude_purchased then
      recs.filter (fun rec => !(decide (rec.product_id ∈ purchase_history)))
    else recs
  (r.enrich_recommendations (recs.take top_k)).map (fun rec =>
    { rec with method := some method })

/-- `HybridRecommender.recommend`: tier selection on the purchase count,
then the shared postprocessing.  Only the hybrid tier can raise. -/
def HybridRecommender.recommend (r : HybridRecommender) (user_id : String)
    (top_k : Nat) (exclude_purchased : Bool) : Except Unit (List RecEntry) :=
  let purchase_history := r.get_user_purchase_history user_id
  let num_purchases := purchase_history.length
  let all_products := r.products_df.map (·.stock_code)
  let tier : Except Unit (List RecEntry × String) :=
    if num_purchases = 0 then
      Except.ok (r.cold_start_recommend top_k, "cold_start")
    else if num_purchases < r.min_purchases_for_cf then
      Except.ok
        (r.warm_start_recommend user_id purchase_history all_products top_k,
          "warm_start")
    else
      match r.hybrid_recommend user_id purchase_history all_products top_k with
      | Except.error e => Except.error e
      | Except.ok recs => Except.ok (recs, "hybrid")
  match tier with
  | Except.error e => Except.error e
  | Except.ok (recs, method) =>
      Except.ok (r.postprocess purchase_history method top_k exclude_purchased recs)

/-! ### Dictionary lemmas -/

theorem dictGet_dictSet_self {β : Type} (d : List (String × β)) (k : String)
    (v : β) : dictGet (dictSet d k v) k = some v := by
  induction d with
  | nil => simp [dictGet, dictSet]
  | cons p t ih =>
    by_cases h : p.1 = k
    · simp [dictSet, h, dictGet]
    · simpa [dictSet, h, dictGet] using ih

theorem dictSet_of_not_mem {β : Type} {d : List (String × β)} {k : String}
    (v : β) (h : k ∉ dictKeys d) : dictSet d k v = d ++ [(k, v)] := by
  induction d with
  | nil => simp [dictSet]
  | cons p t ih =>
    simp only [dictKeys, List.map_cons, List.mem_cons, not_or] at h
    simp only [dictSet, List.cons_append]
    rw [if_neg (fun hh => h.1 hh.symm), ih (by simpa [dictKeys] using h.2)]

theorem dictKeys_append {β : Type} (d e : List (String × β)) :
    dictKeys (d ++ e) = dictKeys d ++ dictKeys e := by
  simp [dictKeys]

/-! ### Cache lemmas -/

theorem TTLCache.set_max_size {α : Type} (c : TTLCache α) (k : String) (v : α)
    (now : Nat) : (c.set k v now).max_size = c.max_size := rfl

theorem TTLCache.set_ttl_seconds {α : Type} (c : TTLCache α) (k : String)
    (v : α) (now : Nat) : (c.set k v now).ttl_seconds = c.ttl_seconds := rfl

/-- Filling a fresh sequence of keys into a cache with enough headroom only
appends: no eviction and no overwriting happens below capacity. -/
theorem insertAll_below_capacity (ks : List String) :
    ∀ (c : TTLCache String) (now : Nat), ks.Nodup →
      (∀ k ∈ ks, k ∉ dictKeys c.cache) →
      c.cache.length + ks.length ≤ c.max_size →
      (c.insertAll ks now).cache =
        c.cache ++ ks.map (fun k => (k, k, now + c.ttl_seconds)) := by
  induction ks with
  | nil => intro c now _ _ _; simp [TTLCache.insertAll]
  | cons k ks ih =>
    intro c now hnd hfresh hlen
    have hk : k ∉ dictKeys c.cache := hfresh k (List.mem_cons_self k ks)
    have hcap : ¬ c.max_size ≤ c.cache.length := by
      simp only [List.length_cons] at hlen; omega
    have hset : (c.set k k now).cache = c.cache ++ [(k, k, now + c.ttl_seconds)] := by
      simp only [TTLCache.set, if_neg hcap]
      exact dictSet_of_not_mem _ hk
    have hinsert : c.insertAll (k :: ks) now = (c.set k k now).insertAll ks now := by
      simp [TTLCache.insertAll]
    rw [hinsert, ih (c.set k k now) now hnd.of_cons]
    · simp [hset, TTLCache.set_ttl_seconds]
    · intro k' hk'
      simp only [hset, dictKeys_append, List.mem_append]
      rintro (h | h)
      · exact hfresh k' (List.mem_cons_of_mem _ hk') h
      · simp only [dictKeys, List.map_cons, List.map_nil, List.mem_singleton] at h
        exact (List.nodup_cons.mp hnd).1 (h ▸ hk')
    · rw [TTLCache.set_max_size, hset]
      simp only [List.length_append, List.length_cons, List.length_nil] at hlen ⊢
      omega

theorem TTLCache.insertAll_max_size (ks : List String) :
    ∀ (c : TTLCache String) (now : Nat),
      (c.insertAll ks now).max_size = c.max_size := by
  induction ks with
  | nil => intro c now; rfl
  | cons k ks ih =>
    intro c now
    have : c.insertAll (k :: ks) now = (c.set k k now).insertAll ks now := by
      simp [TTLCache.insertAll]
    rw [this, ih, TTLCache.set_max_size]

theorem TTLCache.insertAll_ttl_seconds (ks : List String) :
    ∀ (c : TTLCache String) (now : Nat),
      (c.insertAll ks now).ttl_seconds = c.ttl_seconds := by
  induction ks with
  | nil => intro c now; rfl
  | cons k ks ih =>
    intro c now
    have : c.insertAll (k :: ks) now = (c.set k k now).insertAll ks now := by
      simp [TTLCache.insertAll]
    rw [this, ih, TTLCache.set_ttl_seconds]

/-- C3: when the cache is at capacity, `set` evicts exactly one entry — the
earliest-inserted one, the head of the insertion-ordered map — before
binding the new key with expiry `now + ttl`; a read of an absent or
unexpired key leaves the cache unchanged; and inserting `max_size + 1`
distinct keys into an empty cache (capacity at least 1) evicts exactly the
first-inserted key, leaving the others in insertion order. -/
theorem C3_fifo_eviction :
    (∀ (c : TTLCache Nat) (k k0 : String) (v : Nat) (now : Nat)
        (e0 : Nat × Nat) (rest : List (String × Nat × Nat)),
        c.cache = (k0, e0) :: rest →
        c.max_size ≤ c.cache.length →
        k ∉ dictKeys rest →
        (c.set k v now).cache = rest ++ [(k, v, now + c.ttl_seconds)]) ∧
    (∀ (c : TTLCache Nat) (k : String) (now : Nat),
        (∀ v e, dictGet c.cache k = some (v, e) → now < e) →
        (c.get k now).2 = c) ∧
    (∀ (ks : List String) (ttl now n : Nat), ks.Nodup →
        ks.length = n + 1 → 1 ≤ n →
        dictKeys ((TTLCache.insertAll ⟨ttl, n, []⟩ ks now).cache) = ks.drop 1) := by
  refine ⟨?_, ?_, ?_⟩
  · intro c k k0 v now e0 rest hc hcap hfresh
    have hcap' : c.max_size ≤ ((k0, e0) :: rest).length := by rw [← hc]; exact hcap
    simp only [TTLCache.set, hc]
    rw [if_pos hcap', List.drop_one, List.tail_cons]
    exact dictSet_of_not_mem _ hfresh
  · intro c k now h
    match hg : dictGet c.cache k with
    | none => simp [TTLCache.get, hg]
    | some (v, e) =>
        have := h v e hg
        simp [TTLCache.get, hg, this]
  · intro ks ttl now n hnd hlen hn
    rcases List.eq_nil_or_concat ks with rfl | ⟨init, lastk, rfl⟩
    · simp at hlen
    · have hinitlen : init.length = n := by
        simpa [List.concat_eq_append] using hlen
      have hndsplit := List.nodup_append.mp (by simpa [List.concat_eq_append] using hnd)
      have hsplit :
          TTLCache.insertAll ⟨ttl, n, []⟩ (init.concat lastk) now =
            (TTLCache.insertAll ⟨ttl, n, []⟩ init now).set lastk lastk now := by
        simp [TTLCache.insertAll, List.concat_eq_append]
      have hcache : (TTLCache.insertAll ⟨ttl, n, []⟩ init now).cache =
          init.map (fun k => (k, k, now + ttl)) := by
        simpa using insertAll_below_capacity init ⟨ttl, n, []⟩ now hndsplit.1
          (by simp [dictKeys]) (by simp [hinitlen])
      have hne : init ≠ [] := by
        intro h; rw [h] at hinitlen; simp at hinitlen; omega
      obtain ⟨i0, irest, rfl⟩ := List.exists_cons_of_ne_nil hne
      have hmax : (TTLCache.insertAll ⟨ttl, n, []⟩ (i0 :: irest) now).max_size = n :=
        TTLCache.insertAll_max_size _ _ _
      have httl : (TTLCache.insertAll ⟨ttl, n, []⟩ (i0 :: irest) now).ttl_seconds = ttl :=
        TTLCache.insertAll_ttl_seconds _ _ _
      have hcap : (TTLCache.insertAll ⟨ttl, n, []⟩ (i0 :: irest) now).max_size ≤
          (TTLCache.insertAll ⟨ttl, n, []⟩ (i0 :: irest) now).cache.length := by
        rw [hmax, hcache]; simp [← hinitlen]
      have hlastfresh : lastk ∉ dictKeys (irest.map (fun k => (k, k, now + ttl))) := by
        simp only [dictKeys, List.map_map]
        intro hmem
        exact hndsplit.2.2 (List.mem_cons_of_mem i0 (by simpa using hmem))
          (List.mem_singleton.mpr rfl)
      rw [hsplit]
      simp only [TTLCache.set, hcache, httl, List.map_cons]
      have hcap2 : (({ ttl_seconds := ttl, max_size := n, cache := [] } :
            TTLCache String).insertAll (i0 :: irest) now).max_size ≤
          ((i0, i0, now + ttl) :: irest.map (fun k => (k, k, now + ttl))).length := by
        rw [hmax]
        simp only [List.length_cons, List.length_map]
        simp only [List.length_cons] at hinitlen
        omega
      rw [if_pos hcap2, List.drop_one, List.tail_cons]
      rw [dictSet_of_not_mem _ hlastfresh]
      have hid : ((fun x : String × String × Nat => x.1) ∘ fun k : String =>
          (k, k, now + ttl)) = fun k => k := rfl
      simp [dictKeys, List.map_map, List.concat_eq_append, hid]

/-- Witness for `C3_fifo_eviction` at concrete inputs: a full 2-entry cache
evicts `"a"` when `"c"` is set; a fresh read leaves the cache unchanged;
and inserting 3 distinct keys into an empty 2-slot cache keeps `["b","c"]`. -/
theorem C3_fifo_eviction_witness :
    ((TTLCache.mk 10 2 [("a", 1, 5), ("b", 2, 6)]).set "c" 3 0).cache =
        [("b", 2, 6), ("c", 3, 10)] ∧
    ((TTLCache.mk 10 2 [("a", 1, 5), ("b", 2, 6)]).get "a" 4).2 =
        TTLCache.mk 10 2 [("a", 1, 5), ("b", 2, 6)] ∧
    dictKeys ((TTLCache.insertAll ⟨7, 2, []⟩ ["a", "b", "c"] 0).cache) = ["b", "c"] :=
  ⟨C3_fifo_eviction.1 _ "c" "a" 3 0 (1, 5) [("b", 2, 6)] rfl (by decide)
      (by decide),
    C3_fifo_eviction.2.1 _ "a" 4 (by
      intro v e h
      rw [show dictGet (TTLCache.mk 10 2 [("a", 1, 5), ("b", 2, 6)] :
          TTLCache Nat).cache "a" = some (1, 5) from by decide] at h
      simp only [Option.some.injEq, Prod.mk.injEq] at h
      omega),
    C3_fifo_eviction.2.2 ["a", "b", "c"] 7 0 2 (by decide) (by decide) (by decide)⟩

/-- C4: after `set k v` at time `now`, `get k` at time `now'` returns `v`
exactly when `now' < now + ttl`; a present-but-expired entry is deleted as a
side effect of `get`, which returns absent; and `set` immediately followed
by `get` returns the value whenever the ttl is positive. -/
theorem C4_get_semantics :
    (∀ (c : TTLCache Nat) (k : String) (v : Nat) (now nowq : Nat),
        ((c.set k v now).get k nowq).1 =
          if nowq < now + c.ttl_seconds then some v else none) ∧
    (∀ (c : TTLCache Nat) (k : String) (v : Nat) (e now : Nat),
        dictGet c.cache k = some (v, e) → e ≤ now →
        c.get k now = (none, { c with cache := dictDel c.cache k })) ∧
    (∀ (c : TTLCache Nat) (k : String) (v : Nat) (now : Nat),
        0 < c.ttl_seconds → ((c.set k v now).get k now).1 = some v) := by
  have hmain : ∀ (c : TTLCache Nat) (k : String) (v : Nat) (now nowq : Nat),
      ((c.set k v now).get k nowq).1 =
        if nowq < now + c.ttl_seconds then some v else none := by
    intro c k v now nowq
    have hget : dictGet (c.set k v now).cache k = some (v, now + c.ttl_seconds) := by
      simp only [TTLCache.set]
      exact dictGet_dictSet_self _ _ _
    by_cases h : nowq < now + c.ttl_seconds
    · simp [TTLCache.get, hget, h]
    · simp [TTLCache.get, hget, h]
  refine ⟨hmain, ?_, ?_⟩
  · intro c k v e now hg hexp
    simp [TTLCache.get, hg, Nat.not_lt.mpr hexp]
  · intro c k v now httl
    rw [hmain]
    simp [httl]

/-- Witness for `C4_get_semantics` at concrete inputs. -/
theorem C4_get_semantics_witness :
    (((TTLCache.mk 10 5 [] : TTLCache Nat).set "k" 42 100).get "k" 105).1 =
        some 42 ∧
    (TTLCache.mk 10 5 [("a", 7, 3)] : TTLCache Nat).get "a" 5 =
        (none, { (TTLCache.mk 10 5 [("a", 7, 3)] : TTLCache Nat) with
                  cache := dictDel [("a", 7, 3)] "a" }) ∧
    (((TTLCache.mk 10 5 [] : TTLCache Nat).set "k" 42 100).get "k" 100).1 =
        some 42 :=
  ⟨by rw [C4_get_semantics.1 (TTLCache.mk 10 5 []) "k" 42 100 105]; decide,
    C4_get_semantics.2.1 (TTLCache.mk 10 5 [("a", 7, 3)]) "a" 7 3 5 (by decide)
      (by decide),
    C4_get_semantics.2.2 (TTLCache.mk 10 5 []) "k" 42 100 (by decide)⟩

/-! ### Normalization (C7) -/

/-- C7: each score map is normalized by dividing every value by the map's own
maximum when that maximum is positive; a map whose maximum is `0` is left
unchanged (no division by zero), and a map whose maximum is already `1` is a
fixed point, so renormalizing a normalized map changes nothing. -/
theorem C7_normalization :
    (∀ d : List (String × ℚ), 0 < maxVal d →
        normalizeScores d = d.map (fun p => (p.1, p.2 / maxVal d))) ∧
    (∀ d : List (String × ℚ), maxVal d = 0 → normalizeScores d = d) ∧
    (∀ d : List (String × ℚ), maxVal d = 1 → normalizeScores d = d) := by
  refine ⟨?_, ?_, ?_⟩
  · intro d h
    simp [normalizeScores, h]
  · intro d h
    simp [normalizeScores, h]
  · intro d h
    simp only [normalizeScores, h]
    rw [if_pos one_pos]
    have : ∀ p : String × ℚ, (p.1, p.2 / (1 : ℚ)) = p := by
      intro p; rw [div_one]
    simp [this]

/-- Witness for `C7_normalization` at concrete maps: a positive-maximum map
is divided through by its maximum, an all-zero map and a max-1 map are
returned unchanged. -/
theorem C7_normalization_witness :
    normalizeScores [("A", (4:ℚ)/5), ("B", 2/5)] =
        [("A", ((4:ℚ)/5) / ((4:ℚ)/5)), ("B", ((2:ℚ)/5) / ((4:ℚ)/5))] ∧
    normalizeScores [("A", (0:ℚ)), ("B", 0)] = [("A", (0:ℚ)), ("B", 0)] ∧
    normalizeScores [("A", (1:ℚ)/5), ("B", 1)] = [("A", (1:ℚ)/5), ("B", 1)] := by
  refine ⟨?_, ?_, ?_⟩
  · have h : maxVal [("A", (4:ℚ)/5), ("B", 2/5)] = 4/5 := by
      with_unfolding_all decide
    rw [C7_normalization.1 _ (by rw [h]; norm_num)]
    rw [h]
    simp [List.map_cons]
  · exact C7_normalization.2.1 _ (by with_unfolding_all decide)
  · exact C7_normalization.2.2 _ (by with_unfolding_all decide)

/-! ### Blending (C8) -/

theorem dictKeys_normalizeScores (d : List (String × ℚ)) :
    dictKeys (normalizeScores d) = dictKeys d := by
  unfold normalizeScores
  split
  · simp [dictKeys, List.map_map]
  · rfl

theorem combineUnsorted_map_product_id (d1 d2 : List (String × ℚ))
    (cw fw : ℚ) :
    (combineUnsorted d1 d2 cw fw).map (·.product_id) =
      dictKeys d1 ++ (dictKeys d2).filter (fun k => !(decide (k ∈ dictKeys d1))) := by
  simp [combineUnsorted, List.map_map, Function.comp_def]

/-- C8: the blended list ranges over exactly the union of the two score
maps' keys (an identifier missing from one map is kept, not excluded);
every entry's final score is `cbf_weight * content + cf_weight * collab`
with a missing signal contributing `0`; and on the spec's worked example
(content `{A:0.2, B:1}`, collaborative `{A:0.8, B:0.4}`, weights content
`0.4` / collaborative `0.6`) the output is `[B: 0.70, A: 0.68]`. -/
theorem C8_combine_blend :
    (∀ (cbf_recs cf_recs : List (String × ℚ)) (cw fw : ℚ) (pid : String),
        pid ∈ (HybridRecommender.combine_scores cbf_recs cf_recs cw fw).map
            (·.product_id) ↔
          (pid ∈ dictKeys (pyDict cbf_recs) ∨ pid ∈ dictKeys (pyDict cf_recs))) ∧
    (∀ (cbf_recs cf_recs : List (String × ℚ)) (cw fw : ℚ) (rec : RecEntry),
        rec ∈ HybridRecommender.combine_scores cbf_recs cf_recs cw fw →
        rec.score =
          cw * ((dictGet (normalizeScores (pyDict cbf_recs)) rec.product_id).getD 0) +
            fw * ((dictGet (normalizeScores (pyDict cf_recs)) rec.product_id).getD 0)) ∧
    (HybridRecommender.combine_scores [("A", (1:ℚ)/5), ("B", 1)]
          [("A", 4/5), ("B", 2/5)] (2/5) (3/5)).map
        (fun rec => (rec.product_id, rec.score)) = [("B", 7/10), ("A", 17/25)] := by
  refine ⟨?_, ?_, by with_unfolding_all rfl⟩
  · intro cbf_recs cf_recs cw fw pid
    rw [HybridRecommender.combine_scores,
      ((List.perm_insertionSort scoreDesc _).map (·.product_id)).mem_iff,
      combineUnsorted_map_product_id]
    simp only [List.mem_append, List.mem_filter, dictKeys_normalizeScores,
      Bool.not_eq_eq_eq_not, Bool.not_true, decide_eq_false_iff_not]
    by_cases h : pid ∈ dictKeys (pyDict cbf_recs) <;> simp [h]
  · intro cbf_recs cf_recs cw fw rec hrec
    rw [HybridRecommender.combine_scores, List.mem_insertionSort] at hrec
    simp only [combineUnsorted, List.mem_map] at hrec
    obtain ⟨k, _, rfl⟩ := hrec
    rfl

/-- Witness for `C8_combine_blend`: the score equation instantiated at the
`B` entry of the worked example. -/
theorem C8_combine_blend_witness :
    (RecEntry.mk "B" (7/10) none (some 1) (some (1/2)) none none none none
        none).score =
      (2/5) * ((dictGet (normalizeScores (pyDict [("A", (1:ℚ)/5), ("B", 1)]))
            "B").getD 0) +
        (3/5) * ((dictGet (normalizeScores (pyDict [("A", (4:ℚ)/5), ("B", 2/5)]))
            "B").getD 0) :=
  C8_combine_blend.2.1 [("A", (1:ℚ)/5), ("B", 1)] [("A", 4/5), ("B", 2/5)]
    (2/5) (3/5) _ (by with_unfolding_all decide)

/-! ### Combine ordering (C2) -/

/-- C2 as stated is false: the two content-score lists below are
permutations of each other, yet `_combine_scores` returns different
outputs, because `dict(pairs)` keeps the *last* binding of a duplicated
identifier, so the input order decides which score survives
(`[A:2, B:1, A:1]` yields the map `{A:1, B:1}` while its permutation
`[A:1, B:1, A:2]` yields `{A:2, B:1}`). -/
theorem C2_counterexample :
    [("A", (2:ℚ)), ("B", 1), ("A", 1)].Perm [("A", (1:ℚ)), ("B", 1), ("A", 2)] ∧
      HybridRecommender.combine_scores [("A", (2:ℚ)), ("B", 1), ("A", 1)] [] 1 0 ≠
        HybridRecommender.combine_scores [("A", (1:ℚ)), ("B", 1), ("A", 2)] [] 1 0 :=
  ⟨by decide, by with_unfolding_all decide⟩

/-- C2 amended: the output of `_combine_scores` is sorted by final score
descending and is a permutation of the blended union list; the tie-break is
*stability with respect to the order in which the union of the two
normalized maps is assembled* (first-occurrence order of the content map's
keys, then the new collaborative keys) — not original catalog order, which
the function never sees — and by `C2_counterexample` the result is not
invariant under permutation of the input lists. -/
theorem C2_amended (cbf_recs cf_recs : List (String × ℚ)) (cw fw : ℚ) :
    (HybridRecommender.combine_scores cbf_recs cf_recs cw fw).Sorted scoreDesc ∧
    (HybridRecommender.combine_scores cbf_recs cf_recs cw fw).Perm
      (combineUnsorted (normalizeScores (pyDict cbf_recs))
        (normalizeScores (pyDict cf_recs)) cw fw) ∧
    (∀ c : List RecEntry, c.Pairwise scoreDesc →
      c.Sublist (combineUnsorted (normalizeScores (pyDict cbf_recs))
        (normalizeScores (pyDict cf_recs)) cw fw) →
      c.Sublist (HybridRecommender.combine_scores cbf_recs cf_recs cw fw)) := by
  refine ⟨List.sorted_insertionSort scoreDesc _, List.perm_insertionSort scoreDesc _,
    fun c hr hc => List.sublist_insertionSort hr hc⟩

/-- Witness for `C2_amended`: a sorted singleton sublist of the pre-sort
list survives the sort. -/
theorem C2_amended_witness :
    [RecEntry.mk "A" 1 none (some 1) (some 0) none none none none none].Sublist
      (HybridRecommender.combine_scores [("A", (2:ℚ)), ("B", 1), ("A", 1)] []
        1 0) :=
  (C2_amended [("A", (2:ℚ)), ("B", 1), ("A", 1)] [] 1 0).2.2 _
    (List.pairwise_singleton _ _) (by with_unfolding_all decide)

/-! ### Postprocessing pipeline lemmas -/

/-- Everything `postprocess` emits descends from an input entry: the scoring
fields survive the exclusion filter, truncation and enrichment unchanged,
the tier label is attached, and under `exclude_purchased` the ancestor's
identifier (equal to the output's) is not in the purchase history. -/
theorem mem_postprocess {r : HybridRecommender} {hist : List String}
    {m : String} {k : Nat} {ex : Bool} {recs : List RecEntry}
    {rec' : RecEntry} (h : rec' ∈ r.postprocess hist m k ex recs) :
    ∃ rec ∈ recs, rec'.product_id = rec.product_id ∧ rec'.score = rec.score ∧
      rec'.source = rec.source ∧ rec'.cbf_score = rec.cbf_score ∧
      rec'.cf_score = rec.cf_score ∧ rec'.method = some m ∧
      (ex = true → rec.product_id ∉ hist) := by
  unfold HybridRecommender.postprocess at h
  rw [List.mem_map] at h
  obtain ⟨e, he, rfl⟩ := h
  unfold HybridRecommender.enrich_recommendations at he
  rw [List.mem_filterMap] at he
  obtain ⟨rec, hrec, hrece⟩ := he
  have hrec' : rec ∈
      (if ex then recs.filter (fun x => !(decide (x.product_id ∈ hist)))
        else recs) :=
    List.take_subset k _ hrec
  refine ⟨rec, ?_, ?_⟩
  · rcases Bool.dichotomy ex with hex | hex <;> rw [hex] at hrec'
    · simpa using hrec'
    · exact (show rec ∈ recs ∧ rec.product_id ∉ hist by simpa using hrec').1
  · cases hfind : r.products_df.find?
        (fun p => decide (p.stock_code = rec.product_id)) with
    | none =>
        rw [hfind] at hrece
        exact absurd hrece (by simp)
    | some p =>
        rw [hfind] at hrece
        have hrece2 : some ({ rec with
            product_name := some p.description
            category := some p.category
            price := some p.price
            popularity := some p.popularity_score } : RecEntry) = some e := hrece
        injection hrece2 with hrece2
        subst hrece2
        exact ⟨rfl, rfl, rfl, rfl, rfl, rfl, fun hex => by
          rw [hex] at hrec'
          exact (show rec ∈ recs ∧ rec.product_id ∉ hist by simpa using hrec').2⟩

/-- `postprocess` never returns more than `top_k` entries: the candidate
list is truncated to `top_k` before enrichment, and enrichment only drops. -/
theorem postprocess_length (r : HybridRecommender) (hist : List String)
    (m : String) (k : Nat) (ex : Bool) (recs : List RecEntry) :
    (r.postprocess hist m k ex recs).length ≤ k := by
  unfold HybridRecommender.postprocess HybridRecommender.enrich_recommendations
  rw [List.length_map]
  exact le_trans (List.length_filterMap_le _ _) (List.length_take_le _ _)

/-- Tier dispatch, cold case: an empty purchase history selects the
popularity fallback and never raises. -/
theorem recommend_cold (r : HybridRecommender) (u : String) (k : Nat)
    (ex : Bool) (h : r.get_user_purchase_history u = []) :
    r.recommend u k ex =
      Except.ok (r.postprocess (r.get_user_purchase_history u) "cold_start" k ex
        (r.cold_start_recommend k)) := by
  unfold HybridRecommender.recommend
  simp [h]

/-- Tier dispatch, warm case: a nonempty history below the collaborative
threshold selects `_warm_start_recommend` and never raises. -/
theorem recommend_warm (r : HybridRecommender) (u : String) (k : Nat)
    (ex : Bool) (h1 : r.get_user_purchase_history u ≠ [])
    (h2 : (r.get_user_purchase_history u).length < r.min_purchases_for_cf) :
    r.recommend u k ex =
      Except.ok (r.postprocess (r.get_user_purchase_history u) "warm_start" k ex
        (r.warm_start_recommend u (r.get_user_purchase_history u)
          (r.products_df.map (·.stock_code)) k)) := by
  unfold HybridRecommender.recommend
  have h0 : ¬ (r.get_user_purchase_history u).length = 0 := by
    simpa [List.length_eq_zero] using h1
  simp [h0, h2]

/-- Tier dispatch, hybrid case: at or above the collaborative threshold the
result is the unguarded collaborative call followed by postprocessing. -/
theorem recommend_hybrid (r : HybridRecommender) (u : String) (k : Nat)
    (ex : Bool) (h1 : r.get_user_purchase_history u ≠ [])
    (h2 : ¬ (r.get_user_purchase_history u).length < r.min_purchases_for_cf) :
    r.recommend u k ex =
      match r.hybrid_recommend u (r.get_user_purchase_history u)
          (r.products_df.map (·.stock_code)) k with
      | Except.error e => Except.error e
      | Except.ok recs =>
          Except.ok (r.postprocess (r.get_user_purchase_history u) "hybrid" k ex
            recs) := by
  unfold HybridRecommender.recommend
  have h0 : ¬ (r.get_user_purchase_history u).length = 0 := by
    simpa [List.length_eq_zero] using h1
  simp only [h0, h2, if_false]
  cases r.hybrid_recommend u (r.get_user_purchase_history u)
      (r.products_df.map (·.stock_code)) k <;> simp

/-- Whatever tier ran, a successful `recommend` result is a postprocessed
candidate list for the user's actual purchase history. -/
theorem recommend_ok_shape (r : HybridRecommender) (u : String) (k : Nat)
    (ex : Bool) (l : List RecEntry) (h : r.recommend u k ex = Except.ok l) :
    ∃ recs m,
      l = r.postprocess (r.get_user_purchase_history u) m k ex recs := by
  by_cases h0 : r.get_user_purchase_history u = []
  · rw [recommend_cold r u k ex h0] at h
    injection h with h
    exact ⟨_, _, h.symm⟩
  · by_cases h2 : (r.get_user_purchase_history u).length < r.min_purchases_for_cf
    · rw [recommend_warm r u k ex h0 h2] at h
      injection h with h
      exact ⟨_, _, h.symm⟩
    · rw [recommend_hybrid r u k ex h0 h2] at h
      cases hh : r.hybrid_recommend u (r.get_user_purchase_history u)
          (r.products_df.map (·.stock_code)) k <;> rw [hh] at h
      · exact absurd h (by simp)
      · injection h with h
        exact ⟨_, _, h.symm⟩

/-- Every entry of `_cold_start_recommend` is tagged `popularity` and drawn
from the `top_k` most popular catalog rows. -/
theorem mem_cold_start {r : HybridRecommender} {k : Nat} {rec : RecEntry}
    (h : rec ∈ r.cold_start_recommend k) :
    rec.source = some "popularity" ∧
      rec.product_id ∈
        ((r.products_df.insertionSort popDesc).take k).map (·.stock_code) := by
  unfold HybridRecommender.cold_start_recommend at h
  rw [List.mem_map] at h
  obtain ⟨p, hp, rfl⟩ := h
  exact ⟨rfl, List.mem_map_of_mem _ hp⟩

/-- Every entry of `_combine_scores` carries its own blend certificate:
its final score is the weighted sum of its recorded per-signal scores. -/
theorem score_eq_of_mem_combine {a b : List (String × ℚ)} {cw fw : ℚ}
    {rec : RecEntry} (h : rec ∈ HybridRecommender.combine_scores a b cw fw) :
    rec.score = cw * rec.cbf_score.getD 0 + fw * rec.cf_score.getD 0 := by
  rw [HybridRecommender.combine_scores, List.mem_insertionSort] at h
  simp only [combineUnsorted, List.mem_map] at h
  obtain ⟨pid, _, rfl⟩ := h
  rfl

/-! ### Exclusion (C9) -/

/-- C9: with `exclude_purchased = true` (the caller default) no product
from the user's purchase history survives into the returned list, in any
tier. -/
theorem C9_exclusion (r : HybridRecommender) (u : String) (k : Nat)
    (l : List RecEntry) (h : r.recommend u k true = Except.ok l) :
    ∀ rec ∈ l, rec.product_id ∉ r.get_user_purchase_history u := by
  intro rec hrec
  obtain ⟨recs, m, rfl⟩ := recommend_ok_shape r u k true l h
  obtain ⟨rec0, _, hpid, _, _, _, _, _, hex⟩ := mem_postprocess hrec
  rw [hpid]
  exact hex rfl

/-- A two-product catalog where `u1` has bought `P1`, and the content model
scores both `P1` and `P2`; used to exercise the exclusion filter. -/
def cfgC9 : HybridRecommender :=
  { collaborative_weight := 3/5
    content_weight := 2/5
    min_purchases_for_cf := 5
    products_df := [⟨"P1", "one", "c", 1, 90⟩, ⟨"P2", "two", "c", 2, 50⟩]
    user_item_matrix := [("u1", [("P1", 1)])]
    cbf_model := fun _ _ _ => [("P1", 5), ("P2", 3)]
    cf_model := fun _ _ _ => Except.error () }

/-- Witness for `C9_exclusion`: the purchased `P1` is absent from the
concrete output even though the content model ranked it first. -/
theorem C9_exclusion_witness :
    (RecEntry.mk "P2" (21/50) none (some (3/5)) (some 0) (some "two")
        (some "c") (some 2) (some 50) (some "warm_start")).product_id ∉
      cfgC9.get_user_purchase_history "u1" :=
  C9_exclusion cfgC9 "u1" 2 _ (by with_unfolding_all rfl) _
    (by with_unfolding_all decide)

/-! ### Truncation and silent dropping (C10) -/

/-- Warm-tier configuration whose content model scores three candidates but
ranks first an identifier `X` that is not in the catalog: with `top_k = 2`
the truncated list `[X, P2]` loses `X` at enrichment and only one item
comes back. -/
def cfgC10 : HybridRecommender :=
  { collaborative_weight := 3/5
    content_weight := 2/5
    min_purchases_for_cf := 5
    products_df := [⟨"P1", "one", "c", 1, 90⟩, ⟨"P2", "two", "c", 2, 50⟩,
      ⟨"P3", "three", "c", 3, 10⟩]
    user_item_matrix := [("u1", [("P1", 1)])]
    cbf_model := fun _ _ _ => [("X", 5), ("P2", 3), ("P3", 2)]
    cf_model := fun _ _ _ => Except.error () }

/-- C10: a successful `recommend` never returns more than `top_k` items,
and can return strictly fewer even though more scored candidates existed:
truncation to `top_k` happens before enrichment, and enrichment silently
drops identifiers missing from the catalog.  Concretely `cfgC10` has three
scored candidates but `recommend "u1" 2 true` returns a single item. -/
theorem C10_topk_truncation :
    (∀ (r : HybridRecommender) (u : String) (k : Nat) (ex : Bool)
        (l : List RecEntry),
        r.recommend u k ex = Except.ok l → l.length ≤ k) ∧
    Except.map List.length (cfgC10.recommend "u1" 2 true) = Except.ok 1 ∧
    (HybridRecommender.combine_scores [("X", (5:ℚ)), ("P2", 3), ("P3", 2)] []
        (7/10) (3/10)).length = 3 := by
  refine ⟨?_, by with_unfolding_all rfl, by with_unfolding_all rfl⟩
  intro r u k ex l h
  obtain ⟨recs, m, rfl⟩ := recommend_ok_shape r u k ex l h
  exact postprocess_length r _ m k ex recs

/-- Witness for `C10_topk_truncation`: the length bound applied to the
concrete one-item output of `cfgC10`. -/
theorem C10_topk_truncation_witness :
    ([RecEntry.mk "P2" (21/50) none (some (3/5)) (some 0) (some "two")
        (some "c") (some 2) (some 50) (some "warm_start")] :
      List RecEntry).length ≤ 2 :=
  C10_topk_truncation.1 cfgC10 "u1" 2 true _ (by with_unfolding_all rfl)

/-! ### Cold start (C5) -/

/-- C5: for a user with an empty purchase history `recommend` is
independent of the collaborative model — replacing it by any other model
leaves the output unchanged, so the collaborative signal is never
consulted — the call never raises, and every returned item carries the
`cold_start` label, the `popularity` source tag, and one of the `top_k`
most popular catalog identifiers. -/
theorem C5_cold_start (r : HybridRecommender) (u : String) (k : Nat)
    (ex : Bool)
    (f g : String → List String → Nat → Except Unit (List (String × ℚ)))
    (h : r.get_user_purchase_history u = []) :
    HybridRecommender.recommend { r with cf_model := f } u k ex =
      HybridRecommender.recommend { r with cf_model := g } u k ex ∧
    ∃ l, r.recommend u k ex = Except.ok l ∧
      ∀ rec ∈ l, rec.method = some "cold_start" ∧
        rec.source = some "popularity" ∧
        rec.product_id ∈
          ((r.products_df.insertionSort popDesc).take k).map (·.stock_code) := by
  constructor
  · rw [recommend_cold { r with cf_model := f } u k ex h,
      recommend_cold { r with cf_model := g } u k ex h]
    rfl
  · refine ⟨_, recommend_cold r u k ex h, ?_⟩
    intro rec hrec
    obtain ⟨rec0, h0, hpid, _, hsource, _, _, hmethod, _⟩ := mem_postprocess hrec
    obtain ⟨hsrc0, hmem0⟩ := mem_cold_start h0
    refine ⟨hmethod, ?_, ?_⟩
    · rw [hsource, hsrc0]
    · rw [hpid]
      exact hmem0

/-- The spec's cold-start fixture: catalog `{A: 90, B: 50, C: 10}` and a
user with no recorded purchases. -/
def cfgC5 : HybridRecommender :=
  { collaborative_weight := 3/5
    content_weight := 2/5
    min_purchases_for_cf := 5
    products_df := [⟨"A", "a", "c", 1, 90⟩, ⟨"B", "b", "c", 2, 50⟩,
      ⟨"C", "c", "c", 3, 10⟩]
    user_item_matrix := []
    cbf_model := fun _ _ _ => []
    cf_model := fun _ _ _ => Except.error () }

/-- Witness for `C5_cold_start`: a raising collaborative model and an empty
one produce identical cold-start output. -/
theorem C5_cold_start_witness :
    HybridRecommender.recommend
        { cfgC5 with cf_model := fun _ _ _ => Except.error () } "newuser" 2
        true =
      HybridRecommender.recommend
        { cfgC5 with cf_model := fun _ _ _ => Except.ok [] } "newuser" 2
        true :=
  (C5_cold_start cfgC5 "newuser" 2 true _ _ (by with_unfolding_all rfl)).1

/-! ### Warm-start weights (C6) -/

/-- C6: for a user with a nonempty history below the collaborative
threshold, `recommend` ignores the configured blend weights entirely —
reconfiguring them changes nothing — and every returned item's final score
is exactly `0.7 * content + 0.3 * collaborative` over its recorded
per-signal scores. -/
theorem C6_warm_weights (r : HybridRecommender) (u : String) (k : Nat)
    (ex : Bool) (w1 w2 : ℚ)
    (h1 : r.get_user_purchase_history u ≠ [])
    (h2 : (r.get_user_purchase_history u).length < r.min_purchases_for_cf) :
    r.recommend u k ex =
      HybridRecommender.recommend
        { r with collaborative_weight := w1, content_weight := w2 } u k ex ∧
    ∃ l, r.recommend u k ex = Except.ok l ∧
      ∀ rec ∈ l, rec.score =
        (7/10) * rec.cbf_score.getD 0 + (3/10) * rec.cf_score.getD 0 := by
  constructor
  · rw [recommend_warm r u k ex h1 h2,
      recommend_warm { r with collaborative_weight := w1, content_weight := w2 }
        u k ex h1 h2]
    rfl
  · refine ⟨_, recommend_warm r u k ex h1 h2, ?_⟩
    intro rec hrec
    obtain ⟨rec0, h0, _, hscore, _, hcbf, hcf, _, _⟩ := mem_postprocess hrec
    rw [HybridRecommender.warm_start_recommend] at h0
    have h0' := List.take_subset k _ h0
    rw [hscore, hcbf, hcf]
    exact score_eq_of_mem_combine h0'

/-- Warm-tier configuration (one purchase, threshold 5) used to witness the
weight override. -/
def cfgC6 : HybridRecommender :=
  { collaborative_weight := 3/5
    content_weight := 2/5
    min_purchases_for_cf := 5
    products_df := [⟨"P1", "one", "c", 1, 90⟩, ⟨"P2", "two", "c", 2, 50⟩,
      ⟨"P3", "three", "c", 3, 10⟩]
    user_item_matrix := [("u1", [("P1", 1)])]
    cbf_model := fun _ _ _ => [("P2", 3), ("P3", 2)]
    cf_model := fun _ _ _ => Except.ok [("P3", 4)] }

/-- Witness for `C6_warm_weights`: swapping the configured weights for a
warm-tier user leaves the output untouched. -/
theorem C6_warm_weights_witness :
    cfgC6.recommend "u1" 2 true =
      HybridRecommender.recommend
        { cfgC6 with collaborative_weight := 1, content_weight := 0 } "u1" 2
        true :=
  (C6_warm_weights cfgC6 "u1" 2 true 1 0 (by with_unfolding_all decide)
      (by with_unfolding_all decide)).1

/-! ### Collaborative-failure degradation (C1) -/

/-- Hybrid-tier configuration (threshold 1, one recorded purchase) whose
collaborative model raises on every call. -/
def cfgC1 : HybridRecommender :=
  { collaborative_weight := 3/5
    content_weight := 2/5
    min_purchases_for_cf := 1
    products_df := [⟨"P1", "one", "c", 5, 90⟩, ⟨"P2", "two", "c", 3, 50⟩]
    user_item_matrix := [("u1", [("P1", 2)])]
    cbf_model := fun _ _ _ => [("P2", 1)]
    cf_model := fun _ _ _ => Except.error () }

/-- C1 as stated is false for the hybrid tier: `_hybrid_recommend` calls
the collaborative model without the `try`/`except` that
`_warm_start_recommend` has, so for the hybrid-tier user `u1` the
exception propagates out of `recommend` instead of degrading to
content-only scores. -/
theorem C1_counterexample :
    cfgC1.recommend "u1" 5 true = Except.error () := by
  with_unfolding_all rfl

/-- C1 amended: only in the *warm-start* tier does a collaborative failure
degrade gracefully — the call still succeeds and the result is the same as
if the collaborative model had returned no scores at all; in the hybrid
tier the exception is rethrown to the caller (`C1_counterexample`). -/
theorem C1_amended (r : HybridRecommender) (u : String) (k : Nat) (ex : Bool)
    (h1 : r.get_user_purchase_history u ≠ [])
    (h2 : (r.get_user_purchase_history u).length < r.min_purchases_for_cf)
    (hfail : r.cf_model u (r.products_df.map (·.stock_code)) (k * 2) =
      Except.error ()) :
    (∃ l, r.recommend u k ex = Except.ok l) ∧
    r.recommend u k ex =
      HybridRecommender.recommend
        { r with cf_model := fun _ _ _ => Except.ok [] } u k ex := by
  refine ⟨⟨_, recommend_warm r u k ex h1 h2⟩, ?_⟩
  rw [recommend_warm r u k ex h1 h2,
    recommend_warm { r with cf_model := fun _ _ _ => Except.ok [] } u k ex h1 h2]
  unfold HybridRecommender.warm_start_recommend
  rw [hfail]
  rfl

/-- Warm-tier configuration (one purchase, threshold 5) with a raising
collaborative model, for the witness of `C1_amended`. -/
def cfgC1w : HybridRecommender :=
  { collaborative_weight := 3/5
    content_weight := 2/5
    min_purchases_for_cf := 5
    products_df := [⟨"P1", "one", "c", 5, 90⟩, ⟨"P2", "two", "c", 3, 50⟩]
    user_item_matrix := [("u1", [("P1", 2)])]
    cbf_model := fun _ _ _ => [("P2", 1)]
    cf_model := fun _ _ _ => Except.error () }

/-- Witness for `C1_amended`: the warm-tier call with the raising
collaborative model equals the call with an empty collaborative model. -/
theorem C1_amended_witness :
    cfgC1w.recommend "u1" 2 true =
      HybridRecommender.recommend
        { cfgC1w with cf_model := fun _ _ _ => Except.ok [] } "u1" 2 true :=
  (C1_amended cfgC1w "u1" 2 true (by with_unfolding_all decide)
      (by with_unfolding_all decide) rfl).2
